import Mathlib

/-!
Verification of the image conversion engine (`src/convert.rs`) of the
simple-image-converter application: a shallow embedding of its byte-level
EXIF/TIFF orientation patcher, magic-byte format validator, filename
derivation, resize dispatch, JPEG fallback encoding, color-correction step
and the conversion orchestrator, together with proofs of the specified
properties.
-/

set_option autoImplicit false

namespace ImageConverter

/-! ### Byte buffers

Byte buffers are `List Nat` (each entry one byte).  `getByte` models an
indexed read (`buf[i]`); out-of-range reads yield 0, which is never
observable because the Rust code reads only under explicit bounds guards.
`setByte` models an in-place write (`buf[i] = v`); an out-of-range write is
a no-op (the code writes only in bounds). -/

def getByte : List Nat → Nat → Nat
  | [], _ => 0
  | b :: _, 0 => b
  | _ :: l, n + 1 => getByte l n

def setByte : List Nat → Nat → Nat → List Nat
  | [], _, _ => []
  | _ :: l, 0, v => v :: l
  | b :: l, n + 1, v => b :: setByte l n v

/-- `buf.starts_with(pre)` on byte slices. -/
def startsWithBytes : List Nat → List Nat → Bool
  | _, [] => true
  | [], _ :: _ => false
  | a :: as, b :: bs => a == b && startsWithBytes as bs

theorem length_setByte (l : List Nat) (i v : Nat) : (setByte l i v).length = l.length := by
  induction l generalizing i with
  | nil => rfl
  | cons b t ih =>
    cases i with
    | zero => rfl
    | succ n => simpa [setByte] using ih n

theorem getByte_setByte_ne (l : List Nat) (i j v : Nat) (h : j ≠ i) :
    getByte (setByte l i v) j = getByte l j := by
  induction l generalizing i j with
  | nil => rfl
  | cons b t ih =>
    cases i with
    | zero =>
      cases j with
      | zero => exact absurd rfl h
      | succ m => simp [setByte, getByte]
    | succ n =>
      cases j with
      | zero => simp [setByte, getByte]
      | succ m => simpa [setByte, getByte] using ih n m (fun hh => h (by rw [hh]))

theorem getByte_setByte_self (l : List Nat) (i v : Nat) (h : i < l.length) :
    getByte (setByte l i v) i = v := by
  induction l generalizing i with
  | nil => simp at h
  | cons b t ih =>
    cases i with
    | zero => rfl
    | succ n => simpa [setByte, getByte] using ih n (by simpa using h)

theorem setByte_eq_self (l : List Nat) (i v : Nat) (h : getByte l i = v) :
    setByte l i v = l := by
  induction l generalizing i with
  | nil => rfl
  | cons b t ih =>
    cases i with
    | zero =>
      simp only [getByte] at h
      simp [setByte, h]
    | succ n =>
      simp only [setByte]
      rw [ih n (by simpa [getByte] using h)]

theorem take_setByte (l : List Nat) (i v n : Nat) (h : n ≤ i) :
    (setByte l i v).take n = l.take n := by
  induction l generalizing i n with
  | nil => rfl
  | cons b t ih =>
    cases i with
    | zero =>
      cases n with
      | zero => rfl
      | succ m => omega
    | succ k =>
      cases n with
      | zero => rfl
      | succ m =>
        simp only [setByte, List.take_succ_cons]
        rw [ih k m (by omega)]

theorem getByte_drop (l : List Nat) (n i : Nat) : getByte (l.drop n) i = getByte l (n + i) := by
  induction l generalizing n with
  | nil => simp [getByte]
  | cons b t ih =>
    cases n with
    | zero => simp
    | succ m =>
      have h1 : m + 1 + i = (m + i) + 1 := by omega
      rw [List.drop_succ_cons, ih m, h1]
      rfl

theorem getByte_append_left (l₁ l₂ : List Nat) (j : Nat) (h : j < l₁.length) :
    getByte (l₁ ++ l₂) j = getByte l₁ j := by
  induction l₁ generalizing j with
  | nil => simp at h
  | cons b t ih =>
    cases j with
    | zero => rfl
    | succ m =>
      simp only [List.cons_append, getByte]
      exact ih m (by simpa using h)

theorem getByte_append_right (l₁ l₂ : List Nat) (i : Nat) :
    getByte (l₁ ++ l₂) (l₁.length + i) = getByte l₂ i := by
  induction l₁ with
  | nil => simp [getByte]
  | cons b t ih =>
    have h1 : (b :: t).length + i = (t.length + i) + 1 := by simp; omega
    rw [h1]
    simpa [getByte] using ih

theorem getByte_take (l : List Nat) (n j : Nat) (h : j < n) :
    getByte (l.take n) j = getByte l j := by
  induction l generalizing n j with
  | nil => simp [getByte]
  | cons b t ih =>
    cases n with
    | zero => omega
    | succ m =>
      cases j with
      | zero => rfl
      | succ k =>
        simp only [List.take_succ_cons, getByte]
        exact ih m k (by omega)

theorem startsWithBytes_iff (l pre : List Nat) :
    startsWithBytes l pre = true ↔ l.take pre.length = pre := by
  induction pre generalizing l with
  | nil => simp [startsWithBytes]
  | cons p ps ih =>
    cases l with
    | nil => simp [startsWithBytes]
    | cons a as =>
      simp [startsWithBytes, List.take_succ_cons, Bool.and_eq_true, beq_iff_eq, ih]

/-! ### EXIF/TIFF orientation patch (`patch_orientation_in_place`, convert.rs 123–167)

The Rust function receives the marker-prefixed EXIF payload, takes the TIFF
slice after the 6-byte `Exif\0\0` marker, determines endianness from the
`II`/`MM` signature, reads the 4-byte IFD0 offset at bytes 4..8, the 2-byte
entry count at the offset, then walks up to that many 12-byte entries; the
first entry with tag 0x0112 has its 2-byte value field (entry offset 8)
overwritten with 1 in the buffer's endianness.  Every read is bounds-guarded
and a failed guard returns with the buffer untouched. -/

def readU16 (isLE : Bool) (t : List Nat) (p : Nat) : Nat :=
  if isLE then getByte t p + 256 * getByte t (p + 1)
  else 256 * getByte t p + getByte t (p + 1)

def readU32 (isLE : Bool) (t : List Nat) (p : Nat) : Nat :=
  if isLE then
    getByte t p + 256 * getByte t (p + 1) + 65536 * getByte t (p + 2) +
      16777216 * getByte t (p + 3)
  else
    16777216 * getByte t p + 65536 * getByte t (p + 1) + 256 * getByte t (p + 2) +
      getByte t (p + 3)

/-- The entry-walking loop: starting at `pos`, scan up to `fuel` (the entry
count) 12-byte entries; stop at the first whose 2-byte tag is 0x0112 = 274,
or when an entry would cross the end of the buffer. -/
def findEntry (isLE : Bool) (t : List Nat) : Nat → Nat → Option Nat
  | _, 0 => none
  | pos, fuel + 1 =>
    if pos + 12 > t.length then none
    else if readU16 isLE t pos = 274 then some pos
    else findEntry isLE t (pos + 12) fuel

/-- `tiff_data.starts_with(b"II")` (0x49 = 73). -/
def tiffLE (t : List Nat) : Bool := startsWithBytes t [73, 73]

/-- The IFD0 offset read from TIFF bytes 4..8. -/
def tiffOffset (t : List Nat) : Nat := readU32 (tiffLE t) t 4

/-- The 2-byte entry count read at the IFD0 offset. -/
def tiffCount (t : List Nat) : Nat := readU16 (tiffLE t) t (tiffOffset t)

/-- Position of the first orientation (0x0112) entry of IFD0, `none` when the
offset fails its bounds guard or no entry matches within the walked range. -/
def tiffEntryPos (t : List Nat) : Option Nat :=
  if tiffOffset t + 2 > t.length then none
  else findEntry (tiffLE t) t (tiffOffset t + 2) (tiffCount t)

/-- Body of `patch_orientation_in_place` acting on the TIFF slice
(`tiff_data = &mut full_payload[6..]`): overwrite the located entry's value
field with 1 encoded in the buffer's endianness, or leave the slice alone. -/
def patchTiff (t : List Nat) : List Nat :=
  match tiffEntryPos t with
  | none => t
  | some pos =>
    if tiffLE t then setByte (setByte t (pos + 8) 1) (pos + 9) 0
    else setByte (setByte t (pos + 8) 0) (pos + 9) 1

/-- The 6-byte `Exif\0\0` marker. -/
def exifMarker : List Nat := [69, 120, 105, 102, 0, 0]

/-- `patch_orientation_in_place` (convert.rs 123–167): a payload without the
marker or shorter than 18 bytes is returned untouched; otherwise the TIFF
slice after the marker is patched in place. -/
def patchOrientationInPlace (full : List Nat) : List Nat :=
  if ¬ startsWithBytes full exifMarker = true ∨ full.length < 18 then full
  else full.take 6 ++ patchTiff (full.drop 6)

/-- Position (within the TIFF slice) of the entry the patcher would write to,
driven by exactly the same guards as `patchOrientationInPlace`. -/
def orientationEntryPos (full : List Nat) : Option Nat :=
  if ¬ startsWithBytes full exifMarker = true ∨ full.length < 18 then none
  else tiffEntryPos (full.drop 6)

theorem findEntry_some_spec (isLE : Bool) (t : List Nat) :
    ∀ fuel pos p, findEntry isLE t pos fuel = some p →
      pos ≤ p ∧ p + 12 ≤ t.length ∧ readU16 isLE t p = 274 := by
  intro fuel
  induction fuel with
  | zero => intro pos p h; simp [findEntry] at h
  | succ n ih =>
    intro pos p h
    simp only [findEntry] at h
    by_cases hb : pos + 12 > t.length
    · simp [hb] at h
    · simp only [hb, if_false] at h
      by_cases ht : readU16 isLE t pos = 274
      · simp only [ht, if_true, Option.some.injEq] at h
        subst h
        exact ⟨le_refl _, by omega, ht⟩
      · simp only [ht, if_false] at h
        obtain ⟨h1, h2, h3⟩ := ih (pos + 12) p h
        exact ⟨by omega, h2, h3⟩

theorem readU16_congr (isLE : Bool) (t t' : List Nat) (p : Nat)
    (h0 : getByte t' p = getByte t p) (h1 : getByte t' (p + 1) = getByte t (p + 1)) :
    readU16 isLE t' p = readU16 isLE t p := by
  unfold readU16
  rw [h0, h1]

theorem readU32_congr (isLE : Bool) (t t' : List Nat) (p : Nat)
    (h0 : getByte t' p = getByte t p) (h1 : getByte t' (p + 1) = getByte t (p + 1))
    (h2 : getByte t' (p + 2) = getByte t (p + 2))
    (h3 : getByte t' (p + 3) = getByte t (p + 3)) :
    readU32 isLE t' p = readU32 isLE t p := by
  unfold readU32
  rw [h0, h1, h2, h3]

theorem findEntry_congr (isLE : Bool) (t t' : List Nat) (hlen : t'.length = t.length) :
    ∀ fuel pos p, (∀ i, i < p + 2 → getByte t' i = getByte t i) →
      findEntry isLE t pos fuel = some p → findEntry isLE t' pos fuel = some p := by
  intro fuel
  induction fuel with
  | zero => intro pos p _ h; simp [findEntry] at h
  | succ n ih =>
    intro pos p hag h
    obtain ⟨hpos, _, _⟩ := findEntry_some_spec isLE t (n + 1) pos p h
    simp only [findEntry] at h ⊢
    rw [hlen]
    by_cases hb : pos + 12 > t.length
    · simp [hb] at h
    · simp only [hb, if_false] at h ⊢
      have hr : readU16 isLE t' pos = readU16 isLE t pos :=
        readU16_congr isLE t t' pos (hag pos (by omega)) (hag (pos + 1) (by omega))
      by_cases ht : readU16 isLE t pos = 274
      · simp only [ht, if_true, Option.some.injEq] at h
        subst h
        rw [hr]
        simp [ht]
      · simp only [ht, if_false] at h
        simp only [hr, ht, if_false]
        exact ih (pos + 12) p hag h

theorem tiffEntryPos_spec (t : List Nat) (pos : Nat) (h : tiffEntryPos t = some pos) :
    tiffOffset t + 2 ≤ pos ∧ pos + 12 ≤ t.length ∧ readU16 (tiffLE t) t pos = 274 := by
  unfold tiffEntryPos at h
  by_cases hb : tiffOffset t + 2 > t.length
  · simp [hb] at h
  · simp only [hb, if_false] at h
    exact findEntry_some_spec _ _ _ _ _ h

theorem patchTiff_length (t : List Nat) : (patchTiff t).length = t.length := by
  unfold patchTiff
  cases h : tiffEntryPos t with
  | none => rfl
  | some pos =>
    by_cases hle : tiffLE t
    · simp [hle, length_setByte]
    · simp [hle, length_setByte]

theorem take_length_append (l₁ l₂ : List Nat) : (l₁ ++ l₂).take l₁.length = l₁ := by
  induction l₁ with
  | nil => rfl
  | cons a t ih => simp [List.take_succ_cons, ih]

theorem drop_length_append (l₁ l₂ : List Nat) : (l₁ ++ l₂).drop l₁.length = l₂ := by
  induction l₁ with
  | nil => rfl
  | cons a t ih => exact ih

theorem take_append_eq_left (l₁ l₂ : List Nat) (n : Nat) (h : l₁.length = n) :
    (l₁ ++ l₂).take n = l₁ := by
  subst h
  exact take_length_append l₁ l₂

theorem drop_append_eq_right (l₁ l₂ : List Nat) (n : Nat) (h : l₁.length = n) :
    (l₁ ++ l₂).drop n = l₂ := by
  subst h
  exact drop_length_append l₁ l₂

/-- After the patcher has written the value pair `(a, b)` into the located
entry, running the whole TIFF patch again (scan included) leaves the buffer
unchanged: all bytes the scan reads lie strictly before the written pair. -/
theorem patchTiff_stable (t : List Nat) (pos a b : Nat) (hpos : tiffEntryPos t = some pos)
    (hab : (a, b) = if tiffLE t then ((1 : Nat), (0 : Nat)) else (0, 1)) :
    patchTiff (setByte (setByte t (pos + 8) a) (pos + 9) b)
      = setByte (setByte t (pos + 8) a) (pos + 9) b := by
  obtain ⟨hp1, hp2, hp3⟩ := tiffEntryPos_spec t pos hpos
  set t' := setByte (setByte t (pos + 8) a) (pos + 9) b with ht'
  have hlen' : t'.length = t.length := by
    rw [ht', length_setByte, length_setByte]
  have hag : ∀ i, i ≠ pos + 8 → i ≠ pos + 9 → getByte t' i = getByte t i := by
    intro i h8 h9
    rw [ht', getByte_setByte_ne _ _ _ _ h9, getByte_setByte_ne _ _ _ _ h8]
  have htake : t'.take 2 = t.take 2 := by
    rw [ht', take_setByte _ _ _ _ (by omega), take_setByte _ _ _ _ (by omega)]
  have hLE' : tiffLE t' = tiffLE t := by
    unfold tiffLE
    rw [Bool.eq_iff_iff, startsWithBytes_iff, startsWithBytes_iff]
    have h2 : ([73, 73] : List Nat).length = 2 := rfl
    rw [h2, htake]
  have hoff' : tiffOffset t' = tiffOffset t := by
    unfold tiffOffset
    rw [hLE']
    exact readU32_congr _ t t' 4 (hag 4 (by omega) (by omega)) (hag 5 (by omega) (by omega))
      (hag 6 (by omega) (by omega)) (hag 7 (by omega) (by omega))
  have hcount' : tiffCount t' = tiffCount t := by
    unfold tiffCount
    rw [hLE', hoff']
    exact readU16_congr _ t t' (tiffOffset t)
      (hag (tiffOffset t) (by omega) (by omega))
      (hag (tiffOffset t + 1) (by omega) (by omega))
  have hb : ¬ (tiffOffset t + 2 > t.length) := by omega
  have hfind : findEntry (tiffLE t) t (tiffOffset t + 2) (tiffCount t) = some pos := by
    unfold tiffEntryPos at hpos
    rwa [if_neg hb] at hpos
  have hpos' : tiffEntryPos t' = some pos := by
    unfold tiffEntryPos
    rw [hLE', hoff', hcount', hlen', if_neg hb]
    exact findEntry_congr _ t t' hlen' (tiffCount t) (tiffOffset t + 2) pos
      (fun i hi => hag i (by omega) (by omega)) hfind
  have hv8 : getByte t' (pos + 8) = a := by
    rw [ht', getByte_setByte_ne _ _ _ _ (by omega)]
    exact getByte_setByte_self t (pos + 8) a (by omega)
  have hv9 : getByte t' (pos + 9) = b := by
    rw [ht']
    exact getByte_setByte_self _ (pos + 9) b (by rw [length_setByte]; omega)
  have hstep : patchTiff t'
      = if tiffLE t' then setByte (setByte t' (pos + 8) 1) (pos + 9) 0
        else setByte (setByte t' (pos + 8) 0) (pos + 9) 1 := by
    unfold patchTiff
    rw [hpos']
  rw [hstep, hLE']
  by_cases hle : tiffLE t = true
  · rw [if_pos hle]
    rw [if_pos hle] at hab
    injection hab with ha1 hb1
    rw [setByte_eq_self t' (pos + 8) 1 (by rw [hv8, ha1]),
      setByte_eq_self t' (pos + 9) 0 (by rw [hv9, hb1])]
  · rw [if_neg hle]
    rw [if_neg hle] at hab
    injection hab with ha1 hb1
    rw [setByte_eq_self t' (pos + 8) 0 (by rw [hv8, ha1]),
      setByte_eq_self t' (pos + 9) 1 (by rw [hv9, hb1])]

theorem patchTiff_idem (t : List Nat) : patchTiff (patchTiff t) = patchTiff t := by
  cases hpos : tiffEntryPos t with
  | none =>
    have h1 : patchTiff t = t := by
      unfold patchTiff
      rw [hpos]
    rw [h1]
    exact h1
  | some pos =>
    have hstep1 : patchTiff t
        = if tiffLE t then setByte (setByte t (pos + 8) 1) (pos + 9) 0
          else setByte (setByte t (pos + 8) 0) (pos + 9) 1 := by
      unfold patchTiff
      rw [hpos]
    by_cases hle : tiffLE t = true
    · rw [hstep1, if_pos hle]
      exact patchTiff_stable t pos 1 0 hpos (by rw [if_pos hle])
    · rw [hstep1, if_neg hle]
      exact patchTiff_stable t pos 0 1 hpos (by rw [if_neg hle])

theorem patchOrientationInPlace_idem (b : List Nat) :
    patchOrientationInPlace (patchOrientationInPlace b) = patchOrientationInPlace b := by
  by_cases hg : ¬ startsWithBytes b exifMarker = true ∨ b.length < 18
  · have h1 : patchOrientationInPlace b = b := by
      unfold patchOrientationInPlace
      rw [if_pos hg]
    rw [h1]
    exact h1
  · push_neg at hg
    obtain ⟨hs, hl⟩ := hg
    have h18 : 18 ≤ b.length := by omega
    have htk : b.take 6 = exifMarker := (startsWithBytes_iff b exifMarker).mp hs
    have hpb : patchOrientationInPlace b = b.take 6 ++ patchTiff (b.drop 6) := by
      unfold patchOrientationInPlace
      rw [if_neg (by push_neg; exact ⟨hs, hl⟩)]
    have hlt6 : (b.take 6).length = 6 := by
      rw [List.length_take]
      omega
    have hBlen : (b.take 6 ++ patchTiff (b.drop 6)).length = b.length := by
      rw [List.length_append, hlt6, patchTiff_length, List.length_drop]
      omega
    have hBtake : (b.take 6 ++ patchTiff (b.drop 6)).take 6 = b.take 6 :=
      take_append_eq_left _ _ 6 hlt6
    have hBdrop : (b.take 6 ++ patchTiff (b.drop 6)).drop 6 = patchTiff (b.drop 6) :=
      drop_append_eq_right _ _ 6 hlt6
    have hBs : startsWithBytes (b.take 6 ++ patchTiff (b.drop 6)) exifMarker = true := by
      rw [startsWithBytes_iff]
      show (b.take 6 ++ patchTiff (b.drop 6)).take 6 = exifMarker
      rw [hBtake, htk]
    rw [hpb]
    unfold patchOrientationInPlace
    rw [if_neg (by push_neg; exact ⟨hBs, by omega⟩), hBdrop, patchTiff_idem, hBtake]

/-! ### Format validator (`validate_file_magic`, convert.rs 26–50)

The validator reads the first 12 bytes of the file (modelled by the
`header` list) and the path extension, lowercases the extension and
compares the header against the magic bytes for the known extensions. -/

def MAGIC_JPEG : List Nat := [255, 216, 255]

def MAGIC_PNG : List Nat := [137, 80, 78, 71]

/-- `RIFF`. -/
def MAGIC_WEBP : List Nat := [82, 73, 70, 70]

/-- `ftyp`. -/
def MAGIC_HEIC : List Nat := [102, 116, 121, 112]

/-- `header[a..b]`. -/
def sliceBytes (l : List Nat) (a b : Nat) : List Nat := (l.drop a).take (b - a)

/-- ASCII lowercasing of the extension, modelling `to_lowercase()` on the
(ASCII) extensions the validator compares against. -/
def lowerExt (s : String) : String := ⟨s.data.map Char.toLower⟩

def validateFileMagic (ext : String) (header : List Nat) : Bool :=
  let e := lowerExt ext
  if e = "jpg" ∨ e = "jpeg" then startsWithBytes header MAGIC_JPEG
  else if e = "png" then startsWithBytes header MAGIC_PNG
  else if e = "webp" then startsWithBytes header MAGIC_WEBP && sliceBytes header 8 12 == [87, 69, 66, 80]
  else if e = "heic" ∨ e = "heif" then sliceBytes header 4 8 == MAGIC_HEIC
  else true

def supportedExts : List String := ["jpg", "jpeg", "png", "webp", "heic", "heif"]

/-- Stated from the spec wording only (the documented signatures of §4.1),
for comparison against the source-derived `validateFileMagic`: JPEG first 3
bytes FF D8 FF, PNG first 4 bytes 89 50 4E 47, WebP bytes [0..4) = RIFF and
[8..12) = WEBP, HEIC/HEIF bytes [4..8) = ftyp. -/
def specHeaderMatches (e : String) (header : List Nat) : Bool :=
  if e = "jpg" ∨ e = "jpeg" then header.take 3 == [255, 216, 255]
  else if e = "png" then header.take 4 == [137, 80, 78, 71]
  else if e = "webp" then header.take 4 == [82, 73, 70, 70] && sliceBytes header 8 12 == [87, 69, 66, 80]
  else if e = "heic" ∨ e = "heif" then sliceBytes header 4 8 == [102, 116, 121, 112]
  else false

/-! ### Conversion options and filename derivation
(`ConversionOptions` in state.rs, `get_target_filename` convert.rs 53–77,
`get_smart_suffix` convert.rs 493–500, output-name block convert.rs 456–478)

Only the fields the conversion engine reads are modelled; the Rust field
`prefix` is named `pre` here because `prefix` is reserved in Lean.  Path
handling stays at the boundary: the model receives the file stem and, for
the preview, the on-disk `image::image_dimensions` outcome. -/

inductive ImageFormat
  | jpeg
  | png
  | webp
  deriving DecidableEq

structure ConversionOptions where
  format : ImageFormat
  quality : Nat
  pngCompressed : Bool
  resize : Bool
  targetWidth : String
  targetHeight : String
  pre : String
  findPattern : String
  replaceWith : String
  autoSuffix : Bool
  keepMetadata : Bool

def formatExt : ImageFormat → String
  | ImageFormat.jpeg => "jpg"
  | ImageFormat.png => "png"
  | ImageFormat.webp => "webp"

/-- Left-to-right, non-overlapping replacement of `pat` by `rep` (Rust
`str::replace` semantics for a non-empty pattern, the only way the engine
calls it); the fuel is the remaining input length, and each step consumes at
least one input character. -/
def replaceFuel (pat rep : List Char) : Nat → List Char → List Char
  | 0, s => s
  | fuel + 1, s =>
    match s with
    | [] => []
    | c :: rest =>
      if pat.isPrefixOf s ∧ pat ≠ [] then rep ++ replaceFuel pat rep fuel (s.drop pat.length)
      else c :: replaceFuel pat rep fuel rest

def strReplace (s pat rep : String) : String :=
  ⟨replaceFuel pat.data rep.data s.data.length s.data⟩

/-- `get_smart_suffix` (convert.rs 493–500). -/
def getSmartSuffix (width height quality : Nat) (format : ImageFormat) : String :=
  let shortSide := min width height
  if format = ImageFormat.png then "-" ++ toString shortSide ++ "p"
  else "-" ++ toString shortSide ++ "p-" ++ toString quality ++ "q"

/-- `get_target_filename` (convert.rs 53–77), the standalone preview:
`dims` is the outcome of `image::image_dimensions` on the source file
(`none` when it fails, in which case no suffix is appended). -/
def getTargetFilename (stem : String) (dims : Option (Nat × Nat)) (o : ConversionOptions) : String :=
  let s1 := if o.findPattern ≠ "" then strReplace stem o.findPattern o.replaceWith else stem
  let s2 := if o.autoSuffix then
      match dims with
      | some wh => s1 ++ getSmartSuffix wh.1 wh.2 o.quality o.format
      | none => s1
    else s1
  o.pre ++ s2 ++ "." ++ formatExt o.format

/-- The output-filename computation inside `convert_image`
(convert.rs 456–478): identical prefix/find-replace/suffix/extension rules,
but the auto-suffix dimensions come from the processed image. -/
def outputFilename (stem : String) (dims : Nat × Nat) (o : ConversionOptions) : String :=
  let s1 := if o.findPattern ≠ "" then strReplace stem o.findPattern o.replaceWith else stem
  let s2 := if o.autoSuffix then s1 ++ getSmartSuffix dims.1 dims.2 o.quality o.format else s1
  o.pre ++ s2 ++ "." ++ formatExt o.format

/-! ### Resize engine (convert.rs 241–259 and 425–442) -/

def u32Max : Nat := 4294967295

/-- Digit-string value, `none` on any non-digit. -/
def digitsVal (cs : List Char) : Option Nat :=
  cs.foldl
    (fun acc c => acc.bind (fun n => if c.isDigit then some (n * 10 + (c.toNat - 48)) else none))
    (some 0)

/-- `s.parse::<u32>().unwrap_or(0)` (convert.rs 427–428): an optional `+`
sign, then at least one digit, value within u32 range; anything else is 0. -/
def parseU32 (s : String) : Nat :=
  let cs := match s.data with
    | '+' :: r => r
    | r => r
  match cs, digitsVal cs with
  | [], _ => 0
  | _, none => 0
  | _ :: _, some n => if n ≤ u32Max then n else 0

/-- Round half away from zero of `a / b`, as exact-rational arithmetic. -/
def roundDiv (a b : Nat) : Nat := (2 * a + b) / (2 * b)

/-- Modelled from the spec (§4.5): the fallback scaler (the image crate's
Lanczos `resize`, an external collaborator) preserves aspect ratio and
scales to the maximum dimensions that fit within the requested bounds;
this is the exact-rational rendering of that dimension rule. -/
def fitDims (w h nw nh : Nat) : Nat × Nat :=
  if nw * h ≤ nh * w then (max (roundDiv (w * nw) w) 1, max (roundDiv (h * nw) w) 1)
  else (max (roundDiv (w * nh) h) 1, max (roundDiv (h * nh) h) 1)

/-- The resize step of `convert_image` (convert.rs 425–442).  A zero target
axis is replaced by `u32::MAX`.  `fastOk fw fh` abstracts whether the
primary `resize_image_fast` path succeeds for the requested output size; on
success its output has exactly the requested dimensions (convert.rs
241–259), and per the spec (§4.5) it reports an error on allocation edge
cases, upon which the Lanczos fit fallback `img.resize` runs. -/
def resizeStep (fastOk : Nat → Nat → Bool) (dims : Nat × Nat) (o : ConversionOptions) : Nat × Nat :=
  if o.resize then
    let w := parseU32 o.targetWidth
    let h := parseU32 o.targetHeight
    if 0 < w ∨ 0 < h then
      let fw := if w = 0 then u32Max else w
      let fh := if h = 0 then u32Max else h
      if fastOk fw fh then (fw, fh) else fitDims dims.1 dims.2 fw fh
    else dims
  else dims

/-! ### Orchestrator (`convert_image`, convert.rs 380–490)

The filesystem and codecs are at the boundary: `SourceEnv` carries what the
orchestrator reads from them (header bytes, metadata length, decode result,
EXIF orientation value, on-disk dimensions for the preview).  The model
tracks the control flow and the dimension/filename data the claims are
about; pixel contents are handled by the color-correction model below. -/

structure SourceEnv where
  ext : String
  stem : String
  header : List Nat
  metaLen : Option Nat
  decodeDims : Option (Nat × Nat)
  orientation : Nat
  onDiskDims : Option (Nat × Nat)

inductive ConvError
  | formatMismatch
  | fileTooLarge
  | decodeFailure
  deriving DecidableEq

def MAX_FILE_SIZE : Nat := 100 * 1024 * 1024

/-- Dimension effect of `apply_orientation` (convert.rs 193–219):
orientations 5–8 involve a 90° or 270° rotation and swap the axes; all
others keep them.  `orientation` is the value read from the file's EXIF
with default 1. -/
def orientDims (orientation : Nat) (d : Nat × Nat) : Nat × Nat :=
  match orientation with
  | 5 => (d.2, d.1)
  | 6 => (d.2, d.1)
  | 7 => (d.2, d.1)
  | 8 => (d.2, d.1)
  | _ => d

/-- `convert_image` (convert.rs 380–490): magic validation, then the
100 MiB size gate (metadata-read failure counts as size 0), then decode,
orientation for non-HEIC inputs, resize, and the output filename; returns
the output filename and processed dimensions.  Metadata extraction, color
correction and encoding do not affect these outputs and are modelled
separately. -/
def convertImage (fastOk : Nat → Nat → Bool) (env : SourceEnv) (o : ConversionOptions) :
    Except ConvError (String × Nat × Nat) :=
  if validateFileMagic env.ext env.header = false then Except.error ConvError.formatMismatch
  else if (env.metaLen).getD 0 > MAX_FILE_SIZE then Except.error ConvError.fileTooLarge
  else
    match env.decodeDims with
    | none => Except.error ConvError.decodeFailure
    | some d0 =>
      let e := lowerExt env.ext
      let d1 := if e ≠ "heic" ∧ e ≠ "heif" then orientDims env.orientation d0 else d0
      let d2 := resizeStep fastOk d1 o
      Except.ok (outputFilename env.stem d2 o, d2.1, d2.2)

/-! ### Color correction (`apply_color_correction`, convert.rs 222–238,
and its call site convert.rs 416–423)

The lcms2 library is an external collaborator: `CmsOracle` abstracts
whether the ICC profile parses (`Profile::new_icc`), whether the transform
builds (`Transform::new`), and the pixel transform itself.  The Rust
function mutates the buffer only after every fallible step, so an error
leaves the pixels untouched; the caller discards the result
(`let _ = apply_color_correction(..)`) and always proceeds. -/

inductive PixelLayout
  | rgb8
  | rgba8
  | other
  deriving DecidableEq

structure ImageBuf where
  layout : PixelLayout
  pixels : List Nat
  deriving DecidableEq

structure CmsOracle where
  newIccOk : List Nat → Bool
  transformOk : List Nat → PixelLayout → Bool
  transformPixels : List Nat → PixelLayout → List Nat → List Nat

/-- Whether the pixel layout is one the Rust `match` maps to an lcms2
format (RGB8 or RGBA8); anything else takes the early `return Ok(())`. -/
def layoutSupported : PixelLayout → Bool
  | PixelLayout.rgb8 => true
  | PixelLayout.rgba8 => true
  | PixelLayout.other => false

def applyColorCorrection (cms : CmsOracle) (img : ImageBuf) (icc : List Nat) :
    Except String ImageBuf :=
  if cms.newIccOk icc = false then Except.error "Invalid ICC profile"
  else if layoutSupported img.layout = false then Except.ok img
  else if cms.transformOk icc img.layout = false then Except.error "CMS"
  else Except.ok { img with pixels := cms.transformPixels icc img.layout img.pixels }

/-- The call site's `let _ = apply_color_correction(&mut img, &icc)`
(convert.rs 422): an error is discarded and the image carried into the
resize and encode stages unchanged. -/
def colorCorrectionStep (cms : CmsOracle) (img : ImageBuf) (icc : List Nat) : ImageBuf :=
  match applyColorCorrection cms img icc with
  | Except.ok i => i
  | Except.error _ => img

/-! ### JPEG encoder (`encode_jpeg`, convert.rs 262–318)

`primaryResult` is the outcome of the `catch_unwind`-wrapped mozjpeg
compression (`none` models a panic or any internal failure of the native
path), `fallbackEnc q` the bytes of the `jpeg_encoder` fallback at quality
`q` (external encoder, an oracle), `reparseOk`/`embed` the container
re-parse and the serialization that embeds the sRGB profile and the patched
EXIF segment (`img_parts`, an oracle); when re-parsing fails the raw encode
is written unchanged.  The function is total: no primary-path failure
escapes it. -/
def encodeJpeg (primaryResult : Option (List Nat)) (fallbackEnc : Nat → List Nat)
    (reparseOk : List Nat → Bool) (embed : List Nat → Option (List Nat) → List Nat)
    (metadata : Option (List Nat)) (quality : Nat) : List Nat :=
  let buf := match primaryResult with
    | some b => b
    | none => fallbackEnc quality
  if reparseOk buf then embed buf (metadata.map patchOrientationInPlace) else buf

/-! ### Claim theorems -/

/-- Claim C1: for every supported extension (jpg, jpeg, png, webp, heic,
heif, case-insensitive) and every 12-byte header, validation succeeds
exactly when the header matches the documented signature for that
extension, and for every extension outside that set validation always
succeeds. -/
theorem magic_validation_correct (ext : String) (header : List Nat)
    (_hlen : header.length = 12) :
    (lowerExt ext ∈ supportedExts →
      validateFileMagic ext header = specHeaderMatches (lowerExt ext) header)
    ∧ (lowerExt ext ∉ supportedExts → validateFileMagic ext header = true) := by
  by_cases h1 : lowerExt ext = "jpg" ∨ lowerExt ext = "jpeg"
  · constructor
    · intro _
      unfold validateFileMagic specHeaderMatches
      rw [if_pos h1, if_pos h1, Bool.eq_iff_iff, startsWithBytes_iff, beq_iff_eq]
      exact Iff.rfl
    · intro hmem
      exact absurd (by rcases h1 with h | h <;> simp [supportedExts, h]) hmem
  · by_cases h2 : lowerExt ext = "png"
    · constructor
      · intro _
        unfold validateFileMagic specHeaderMatches
        rw [if_neg h1, if_neg h1, if_pos h2, if_pos h2, Bool.eq_iff_iff,
          startsWithBytes_iff, beq_iff_eq]
        exact Iff.rfl
      · intro hmem
        exact absurd (by simp [supportedExts, h2]) hmem
    · by_cases h3 : lowerExt ext = "webp"
      · constructor
        · intro _
          have hfst : startsWithBytes header MAGIC_WEBP = (header.take 4 == [82, 73, 70, 70]) := by
            rw [Bool.eq_iff_iff, startsWithBytes_iff, beq_iff_eq]
            exact Iff.rfl
          unfold validateFileMagic specHeaderMatches
          rw [if_neg h1, if_neg h1, if_neg h2, if_neg h2, if_pos h3, if_pos h3, hfst]
        · intro hmem
          exact absurd (by simp [supportedExts, h3]) hmem
      · by_cases h4 : lowerExt ext = "heic" ∨ lowerExt ext = "heif"
        · constructor
          · intro _
            unfold validateFileMagic specHeaderMatches
            rw [if_neg h1, if_neg h1, if_neg h2, if_neg h2, if_neg h3, if_neg h3,
              if_pos h4, if_pos h4]
            rfl
          · intro hmem
            exact absurd (by rcases h4 with h | h <;> simp [supportedExts, h]) hmem
        · constructor
          · intro hmem
            exfalso
            simp only [supportedExts, List.mem_cons, List.mem_singleton,
              List.not_mem_nil, or_false] at hmem
            tauto
          · intro _
            unfold validateFileMagic
            rw [if_neg h1, if_neg h2, if_neg h3, if_neg h4]

theorem magic_validation_correct_witness :
    validateFileMagic "JPG" [255, 216, 255, 0, 0, 0, 0, 0, 0, 0, 0, 0] = true
    ∧ validateFileMagic "txt" [0, 0, 0, 0, 0, 0, 0, 0, 0, 0, 0, 0] = true :=
  ⟨by
    rw [(magic_validation_correct "JPG" [255, 216, 255, 0, 0, 0, 0, 0, 0, 0, 0, 0]
      (by decide)).1 (by decide)]
    decide,
   (magic_validation_correct "txt" [0, 0, 0, 0, 0, 0, 0, 0, 0, 0, 0, 0]
      (by decide)).2 (by decide)⟩

/-- Claim C2: the orientation patcher is idempotent: a marker-prefixed blob
whose located orientation entry already holds value 1 (encoded in the
blob's endianness) is returned byte-identical, and — equivalently —
patching any blob twice yields the same bytes as patching it once. -/
theorem orientation_patch_idempotent :
    (∀ b pos, orientationEntryPos b = some pos →
        getByte b (pos + 14) = (if tiffLE (b.drop 6) then 1 else 0) →
        getByte b (pos + 15) = (if tiffLE (b.drop 6) then 0 else 1) →
        patchOrientationInPlace b = b)
    ∧ ∀ b, patchOrientationInPlace (patchOrientationInPlace b) = patchOrientationInPlace b := by
  constructor
  · intro b pos hpos hv8 hv9
    by_cases hg : ¬ startsWithBytes b exifMarker = true ∨ b.length < 18
    · unfold patchOrientationInPlace
      rw [if_pos hg]
    · have hpos' : tiffEntryPos (b.drop 6) = some pos := by
        unfold orientationEntryPos at hpos
        rwa [if_neg hg] at hpos
      have e8 : getByte (b.drop 6) (pos + 8) = getByte b (pos + 14) := by
        rw [getByte_drop]
        congr 1
        omega
      have e9 : getByte (b.drop 6) (pos + 9) = getByte b (pos + 15) := by
        rw [getByte_drop]
        congr 1
        omega
      have hstep1 : patchTiff (b.drop 6)
          = if tiffLE (b.drop 6) then setByte (setByte (b.drop 6) (pos + 8) 1) (pos + 9) 0
            else setByte (setByte (b.drop 6) (pos + 8) 0) (pos + 9) 1 := by
        unfold patchTiff
        rw [hpos']
      have hpt : patchTiff (b.drop 6) = b.drop 6 := by
        rw [hstep1]
        by_cases hle : tiffLE (b.drop 6) = true
        · rw [if_pos hle]
          rw [if_pos hle] at hv8 hv9
          rw [setByte_eq_self (b.drop 6) (pos + 8) 1 (by rw [e8, hv8]),
            setByte_eq_self (b.drop 6) (pos + 9) 0 (by rw [e9, hv9])]
        · rw [if_neg hle]
          rw [if_neg hle] at hv8 hv9
          rw [setByte_eq_self (b.drop 6) (pos + 8) 0 (by rw [e8, hv8]),
            setByte_eq_self (b.drop 6) (pos + 9) 1 (by rw [e9, hv9])]
      unfold patchOrientationInPlace
      rw [if_neg hg, hpt, List.take_append_drop]
  · exact patchOrientationInPlace_idem

/-- A little-endian EXIF blob with a single IFD0 entry, orientation already
1 (normal). -/
def exifBlobNormal : List Nat :=
  [69, 120, 105, 102, 0, 0, 73, 73, 42, 0, 8, 0, 0, 0, 1, 0, 18, 1, 3, 0, 1, 0, 0, 0, 1, 0, 0, 0]

theorem orientation_patch_idempotent_witness :
    patchOrientationInPlace exifBlobNormal = exifBlobNormal
    ∧ patchOrientationInPlace (patchOrientationInPlace exifBlobNormal)
      = patchOrientationInPlace exifBlobNormal :=
  ⟨orientation_patch_idempotent.1 exifBlobNormal 10 (by decide) (by decide) (by decide),
   orientation_patch_idempotent.2 exifBlobNormal⟩

/-- Claim C3: the patcher changes at most the two value-field bytes (blob
offsets pos+14 and pos+15, i.e. offset 8 of the located entry) of the first
orientation entry, never the blob's length; blobs without the marker or
shorter than 18 bytes, and blobs whose guarded TIFF walk locates no entry
(truncated or malformed structures), are returned entirely unmodified — the
patcher is a total function, so no error is ever raised. -/
theorem orientation_patch_frame (b : List Nat) :
    (patchOrientationInPlace b).length = b.length
    ∧ ((¬ startsWithBytes b exifMarker = true ∨ b.length < 18) → patchOrientationInPlace b = b)
    ∧ (orientationEntryPos b = none → patchOrientationInPlace b = b)
    ∧ (∀ pos, orientationEntryPos b = some pos →
        ∀ j, j ≠ pos + 14 → j ≠ pos + 15 →
          getByte (patchOrientationInPlace b) j = getByte b j) := by
  by_cases hg : ¬ startsWithBytes b exifMarker = true ∨ b.length < 18
  · have h1 : patchOrientationInPlace b = b := by
      unfold patchOrientationInPlace
      rw [if_pos hg]
    exact ⟨by rw [h1], fun _ => h1, fun _ => h1, fun pos _ j _ _ => by rw [h1]⟩
  · push_neg at hg
    obtain ⟨hs, hl⟩ := hg
    have h18 : 18 ≤ b.length := by omega
    have hgneg : ¬ (¬ startsWithBytes b exifMarker = true ∨ b.length < 18) := by
      push_neg
      exact ⟨hs, hl⟩
    have hpb : patchOrientationInPlace b = b.take 6 ++ patchTiff (b.drop 6) := by
      unfold patchOrientationInPlace
      rw [if_neg hgneg]
    have hlt6 : (b.take 6).length = 6 := by
      rw [List.length_take]
      omega
    have hlen : (patchOrientationInPlace b).length = b.length := by
      rw [hpb, List.length_append, hlt6, patchTiff_length, List.length_drop]
      omega
    refine ⟨hlen, fun hc => absurd hc hgneg, ?_, ?_⟩
    · intro hnone
      unfold orientationEntryPos at hnone
      rw [if_neg hgneg] at hnone
      have hpt : patchTiff (b.drop 6) = b.drop 6 := by
        unfold patchTiff
        rw [hnone]
      rw [hpb, hpt, List.take_append_drop]
    · intro pos hpos j hj14 hj15
      have hpos' : tiffEntryPos (b.drop 6) = some pos := by
        unfold orientationEntryPos at hpos
        rwa [if_neg hgneg] at hpos
      have hstep1 : patchTiff (b.drop 6)
          = if tiffLE (b.drop 6) then setByte (setByte (b.drop 6) (pos + 8) 1) (pos + 9) 0
            else setByte (setByte (b.drop 6) (pos + 8) 0) (pos + 9) 1 := by
        unfold patchTiff
        rw [hpos']
      rw [hpb]
      by_cases hj : j < 6
      · rw [getByte_append_left _ _ j (by rw [hlt6]; omega), getByte_take _ _ _ hj]
      · obtain ⟨i, rfl⟩ : ∃ i, j = 6 + i := ⟨j - 6, by omega⟩
        have hright : getByte (b.take 6 ++ patchTiff (b.drop 6)) (6 + i)
            = getByte (patchTiff (b.drop 6)) i := by
          have h := getByte_append_right (b.take 6) (patchTiff (b.drop 6)) i
          rwa [hlt6] at h
        have hi8 : i ≠ pos + 8 := by omega
        have hi9 : i ≠ pos + 9 := by omega
        rw [hright, hstep1]
        by_cases hle : tiffLE (b.drop 6) = true
        · rw [if_pos hle, getByte_setByte_ne _ _ _ _ hi9, getByte_setByte_ne _ _ _ _ hi8,
            getByte_drop]
        · rw [if_neg hle, getByte_setByte_ne _ _ _ _ hi9, getByte_setByte_ne _ _ _ _ hi8,
            getByte_drop]

/-- A little-endian EXIF blob whose orientation entry holds 3 (to be
rewritten to 1). -/
def exifBlobRot : List Nat :=
  [69, 120, 105, 102, 0, 0, 73, 73, 42, 0, 8, 0, 0, 0, 1, 0, 18, 1, 3, 0, 1, 0, 0, 0, 3, 0, 0, 0]

theorem orientation_patch_frame_witness :
    patchOrientationInPlace [1, 2, 3] = [1, 2, 3]
    ∧ getByte (patchOrientationInPlace exifBlobRot) 16 = getByte exifBlobRot 16 :=
  ⟨(orientation_patch_frame [1, 2, 3]).2.1 (by decide),
   (orientation_patch_frame exifBlobRot).2.2.2 10 (by decide) 16 (by decide) (by decide)⟩

/-- Claim C4: a source file whose metadata size reads strictly greater
than 100 MiB (100·1024·1024 bytes) and which passes the magic-byte check
fails with the file-too-large error, and this holds for every value of the
decode oracle in `env` — the size gate fires before any decode is
consulted; a size of at most 100 MiB is never rejected by this check. -/
theorem size_gate (fastOk : Nat → Nat → Bool) (env : SourceEnv) (o : ConversionOptions)
    (n : Nat) :
    (env.metaLen = some n → MAX_FILE_SIZE < n →
      validateFileMagic env.ext env.header = true →
      convertImage fastOk env o = Except.error ConvError.fileTooLarge)
    ∧ ((env.metaLen).getD 0 ≤ MAX_FILE_SIZE →
      convertImage fastOk env o ≠ Except.error ConvError.fileTooLarge) := by
  constructor
  · intro hm hn hv
    unfold convertImage
    rw [hv, hm, if_neg (by simp), Option.getD_some, if_pos hn]
  · intro hle
    unfold convertImage
    by_cases hv : validateFileMagic env.ext env.header = false
    · rw [if_pos hv]
      simp
    · rw [if_neg hv, if_neg (by omega)]
      cases hd : env.decodeDims with
      | none => simp
      | some d => simp

def fastFail : Nat → Nat → Bool := fun _ _ => false

def optsPlain : ConversionOptions :=
  { format := ImageFormat.jpeg, quality := 80, pngCompressed := false, resize := false,
    targetWidth := "", targetHeight := "", pre := "", findPattern := "", replaceWith := "",
    autoSuffix := false, keepMetadata := false }

def envBig : SourceEnv :=
  { ext := "jpg", stem := "big", header := [255, 216, 255, 0, 0, 0, 0, 0, 0, 0, 0, 0],
    metaLen := some 104857601, decodeDims := some (10, 10), orientation := 1,
    onDiskDims := some (10, 10) }

def envSmall : SourceEnv :=
  { ext := "jpg", stem := "small", header := [255, 216, 255, 0, 0, 0, 0, 0, 0, 0, 0, 0],
    metaLen := some 104857600, decodeDims := some (10, 10), orientation := 1,
    onDiskDims := some (10, 10) }

theorem size_gate_witness :
    convertImage fastFail envBig optsPlain = Except.error ConvError.fileTooLarge
    ∧ convertImage fastFail envSmall optsPlain ≠ Except.error ConvError.fileTooLarge :=
  ⟨(size_gate fastFail envBig optsPlain 104857601).1 rfl (by decide) (by decide),
   (size_gate fastFail envSmall optsPlain 0).2 (by decide)⟩

def opts800 : ConversionOptions :=
  { format := ImageFormat.jpeg, quality := 80, pngCompressed := false, resize := true,
    targetWidth := "800", targetHeight := "0", pre := "", findPattern := "", replaceWith := "",
    autoSuffix := false, keepMetadata := false }

/-- Claim C5: with resize requested at width 800 and height 0, the pipeline
substitutes the maximum representable value for the unconstrained axis —
the primary-path oracle is consulted at exactly (800, u32::MAX) — and on a
1600×900 source, the primary path reporting an error there (per spec §4.5
it errors on such allocation edge cases), the aspect-preserving Lanczos
fallback yields an 800×450 output: aspect preserved, never stretched. -/
theorem resize_unconstrained (fastOk : Nat → Nat → Bool)
    (h : fastOk 800 u32Max = false) :
    resizeStep fastOk (1600, 900) opts800 = (800, 450) := by
  have hw : parseU32 "800" = 800 := by decide
  have hh : parseU32 "0" = 0 := by decide
  simp only [resizeStep, opts800]
  norm_num [hw, hh]
  rw [h]
  norm_num
  decide

theorem resize_unconstrained_witness :
    resizeStep fastFail (1600, 900) opts800 = (800, 450) :=
  resize_unconstrained fastFail rfl

def opts6 : ConversionOptions :=
  { format := ImageFormat.png, quality := 80, pngCompressed := false, resize := false,
    targetWidth := "", targetHeight := "", pre := "out_", findPattern := "photo",
    replaceWith := "pic", autoSuffix := false, keepMetadata := false }

/-- Claim C6: for stem `photo` with prefix `out_`, find `photo` → replace
`pic`, target PNG, auto-suffix off, the derived name is `out_pic.png`
(whatever the on-disk dimensions); the auto-suffix for a 1920×1080 image at
quality 80 is `-1080p` for PNG (quality omitted) and `-1080p-80q` for
JPEG; and with an empty find pattern the stem passes through unchanged. -/
theorem filename_derivation :
    (∀ d, getTargetFilename "photo" d opts6 = "out_pic.png")
    ∧ getSmartSuffix 1920 1080 80 ImageFormat.png = "-1080p"
    ∧ getSmartSuffix 1920 1080 80 ImageFormat.jpeg = "-1080p-80q"
    ∧ (∀ stem d o, o.findPattern = "" →
        getTargetFilename stem d o
          = o.pre ++ (if o.autoSuffix then
                (match d with
                 | some wh => stem ++ getSmartSuffix wh.1 wh.2 o.quality o.format
                 | none => stem)
              else stem) ++ "." ++ formatExt o.format) := by
  refine ⟨?_, by decide, by decide, ?_⟩
  · intro d
    simp only [getTargetFilename]
    rw [if_pos (show opts6.findPattern ≠ "" by decide),
      if_neg (show ¬ opts6.autoSuffix = true by decide)]
    decide
  · intro stem d o h
    simp only [getTargetFilename]
    rw [if_neg (show ¬ o.findPattern ≠ "" by simp [h])]

theorem filename_derivation_witness :
    getTargetFilename "photo" (some (1920, 1080)) opts6 = "out_pic.png"
    ∧ getTargetFilename "x" none optsPlain
      = optsPlain.pre ++ (if optsPlain.autoSuffix then
            (match (none : Option (Nat × Nat)) with
             | some wh => "x" ++ getSmartSuffix wh.1 wh.2 optsPlain.quality optsPlain.format
             | none => "x")
          else "x") ++ "." ++ formatExt optsPlain.format :=
  ⟨filename_derivation.1 (some (1920, 1080)),
   filename_derivation.2.2.2 "x" none optsPlain rfl⟩

/-- Claim C7: when the catch_unwind-wrapped primary mozjpeg path fails —
panic included, modelled by `none` — `encode_jpeg` still produces output,
byte-for-byte the output it would produce had the primary path returned the
fallback encoder's bytes at the requested quality; the encoder is total, so
a primary failure never propagates as the conversion's outcome. -/
theorem jpeg_primary_failure_falls_back (fallbackEnc : Nat → List Nat)
    (reparseOk : List Nat → Bool) (embed : List Nat → Option (List Nat) → List Nat)
    (metadata : Option (List Nat)) (quality : Nat) :
    encodeJpeg none fallbackEnc reparseOk embed metadata quality
      = encodeJpeg (some (fallbackEnc quality)) fallbackEnc reparseOk embed metadata quality :=
  rfl

/-- Claim C8: color correction is best-effort: when the profile fails to
parse or the transform cannot be constructed, the call site discards the
error and carries the pixel buffer to the resize and encode stages
unchanged; for layouts other than RGB8/RGBA8 the step is a no-op (it
returns Ok with the image untouched once the profile parses). -/
theorem color_correction_best_effort (cms : CmsOracle) (img : ImageBuf) (icc : List Nat) :
    (cms.newIccOk icc = false → colorCorrectionStep cms img icc = img)
    ∧ (cms.transformOk icc img.layout = false → colorCorrectionStep cms img icc = img)
    ∧ (img.layout = PixelLayout.other →
        colorCorrectionStep cms img icc = img
        ∧ (cms.newIccOk icc = true → applyColorCorrection cms img icc = Except.ok img)) := by
  refine ⟨?_, ?_, ?_⟩
  · intro hicc
    have h1 : applyColorCorrection cms img icc = Except.error "Invalid ICC profile" := by
      unfold applyColorCorrection
      rw [if_pos hicc]
    unfold colorCorrectionStep
    rw [h1]
  · intro htr
    by_cases hicc : cms.newIccOk icc = false
    · have h1 : applyColorCorrection cms img icc = Except.error "Invalid ICC profile" := by
        unfold applyColorCorrection
        rw [if_pos hicc]
      unfold colorCorrectionStep
      rw [h1]
    · by_cases hsup : layoutSupported img.layout = false
      · have h1 : applyColorCorrection cms img icc = Except.ok img := by
          unfold applyColorCorrection
          rw [if_neg hicc, if_pos hsup]
        unfold colorCorrectionStep
        rw [h1]
      · have h1 : applyColorCorrection cms img icc = Except.error "CMS" := by
          unfold applyColorCorrection
          rw [if_neg hicc, if_neg hsup, if_pos htr]
        unfold colorCorrectionStep
        rw [h1]
  · intro hla
    have hsup : layoutSupported img.layout = false := by
      rw [hla]
      rfl
    constructor
    · by_cases hicc : cms.newIccOk icc = false
      · have h1 : applyColorCorrection cms img icc = Except.error "Invalid ICC profile" := by
          unfold applyColorCorrection
          rw [if_pos hicc]
        unfold colorCorrectionStep
        rw [h1]
      · have h1 : applyColorCorrection cms img icc = Except.ok img := by
          unfold applyColorCorrection
          rw [if_neg hicc, if_pos hsup]
        unfold colorCorrectionStep
        rw [h1]
    · intro htrue
      unfold applyColorCorrection
      rw [if_neg (by rw [htrue]; simp), if_pos hsup]

def cmsNever : CmsOracle :=
  { newIccOk := fun _ => false, transformOk := fun _ _ => false,
    transformPixels := fun _ _ p => p }

def imgSample : ImageBuf := { layout := PixelLayout.rgb8, pixels := [1, 2, 3] }

theorem color_correction_best_effort_witness :
    colorCorrectionStep cmsNever imgSample [0] = imgSample :=
  (color_correction_best_effort cmsNever imgSample [0]).1 rfl

def opts9 : ConversionOptions :=
  { format := ImageFormat.jpeg, quality := 80, pngCompressed := false, resize := true,
    targetWidth := "800", targetHeight := "0", pre := "", findPattern := "", replaceWith := "",
    autoSuffix := true, keepMetadata := false }

def env9 : SourceEnv :=
  { ext := "jpg", stem := "a", header := [255, 216, 255, 0, 0, 0, 0, 0, 0, 0, 0, 0],
    metaLen := some 1000, decodeDims := some (1600, 900), orientation := 1,
    onDiskDims := some (1600, 900) }

/-- Claim C9: the standalone preview and the conversion's output name share
the prefix / find-replace / suffix / extension rules, so with auto-suffix
off they agree for every stem and any dimensions; the conversion takes
auto-suffix dimensions from the processed image while the preview reads the
on-disk original, and with auto-suffix and resize both enabled they
disagree on a 1600×900 source resized to width 800. -/
theorem preview_vs_conversion_filename :
    (∀ stem d od o, o.autoSuffix = false →
        outputFilename stem d o = getTargetFilename stem od o)
    ∧ convertImage fastFail env9 opts9 = Except.ok ("a-450p-80q.jpg", 800, 450)
    ∧ getTargetFilename env9.stem env9.onDiskDims opts9 = "a-900p-80q.jpg"
    ∧ outputFilename env9.stem (800, 450) opts9
      ≠ getTargetFilename env9.stem env9.onDiskDims opts9 := by
  refine ⟨?_, rfl, by decide, by decide⟩
  intro stem d od o h
  have hns : ¬ o.autoSuffix = true := by
    rw [h]
    exact Bool.false_ne_true
  simp only [outputFilename, getTargetFilename, if_neg hns]

theorem preview_vs_conversion_filename_witness :
    outputFilename "x" (5, 7) optsPlain = getTargetFilename "x" (some (9, 9)) optsPlain :=
  preview_vs_conversion_filename.1 "x" (5, 7) (some (9, 9)) optsPlain rfl

/-- Claim C10: when the source file's size cannot be read from metadata the
conversion treats it as 0 and never rejects the file as too large; the
file-too-large failure occurs exactly when a successfully read size
strictly exceeds 100 MiB. -/
theorem size_unreadable_not_rejected (fastOk : Nat → Nat → Bool) (env : SourceEnv)
    (o : ConversionOptions) :
    (env.metaLen = none → convertImage fastOk env o ≠ Except.error ConvError.fileTooLarge)
    ∧ (convertImage fastOk env o = Except.error ConvError.fileTooLarge →
        ∃ n, env.metaLen = some n ∧ MAX_FILE_SIZE < n) := by
  constructor
  · intro hm
    unfold convertImage
    by_cases hv : validateFileMagic env.ext env.header = false
    · rw [if_pos hv]
      simp
    · rw [if_neg hv, hm, if_neg (by simp)]
      cases hd : env.decodeDims with
      | none => simp
      | some d => simp
  · intro hres
    unfold convertImage at hres
    by_cases hv : validateFileMagic env.ext env.header = false
    · rw [if_pos hv] at hres
      simp at hres
    · rw [if_neg hv] at hres
      by_cases hsz : (env.metaLen).getD 0 > MAX_FILE_SIZE
      · cases hm : env.metaLen with
        | none =>
          rw [hm] at hsz
          simp at hsz
        | some n =>
          refine ⟨n, rfl, ?_⟩
          rw [hm] at hsz
          simpa using hsz
      · rw [if_neg hsz] at hres
        cases hd : env.decodeDims with
        | none =>
          rw [hd] at hres
          simp at hres
        | some d =>
          rw [hd] at hres
          simp at hres

def envNoMeta : SourceEnv :=
  { ext := "jpg", stem := "a", header := [255, 216, 255, 0, 0, 0, 0, 0, 0, 0, 0, 0],
    metaLen := none, decodeDims := some (10, 10), orientation := 1, onDiskDims := none }

theorem size_unreadable_not_rejected_witness :
    convertImage fastFail envNoMeta optsPlain ≠ Except.error ConvError.fileTooLarge :=
  (size_unreadable_not_rejected fastFail envNoMeta optsPlain).1 rfl

end ImageConverter
